import Mathlib

/-!
Verification of the AlgoGators event-study engine
(shallow embedding of MassStatistics.py, statistics.py and attempt3.py).

Conventions of the embedding:

* dates are integers counting whole days, matching the midnight-normalized
  timestamps the scripts work with; adding a Timedelta of w days is integer
  addition, and the day component of a difference of two such dates is
  integer subtraction;
* float arithmetic is modelled exactly over the rationals; a float NaN
  (pandas "missing") is Option.none;
* pandas label slicing loc[a:b] on the sorted, duplicate-free date index
  guaranteed by the data source returns exactly the rows with index in
  [a, b], both ends included, which this embedding renders as an in-range
  filter;
* external library collaborators that are not code of this repository
  (scipy.stats.ttest_1samp, pandas Series.std, the yfinance data source)
  enter as function parameters of the embedded pipeline.
-/

/-- One row of a raw price series as delivered by the data source
(yfinance download: date index, Close and Volume columns). -/
structure PriceRow where
  date : Int
  close : ℚ
  volume : ℚ
deriving DecidableEq, Repr

/-- Tail of Series.pct_change: each entry divides the current close by the
previous one (prev) and subtracts 1. -/
def pctChangeAux (prev : ℚ) : List ℚ → List (Option ℚ)
  | [] => []
  | c :: cs => some (c / prev - 1) :: pctChangeAux c cs

/-- Series.pct_change() on a close-price column: the first entry is missing
(no prior close), entry i for i greater than 0 is close[i]/close[i-1] - 1.
Used at MassStatistics.py lines 15-16, statistics.py lines 15-17 and
attempt3.py lines 16-17. -/
def pctChange : List ℚ → List (Option ℚ)
  | [] => []
  | c :: cs => none :: pctChangeAux c cs

theorem pctChangeAux_length (prev : ℚ) (cs : List ℚ) :
    (pctChangeAux prev cs).length = cs.length := by
  induction cs generalizing prev with
  | nil => rfl
  | cons c cs ih => simp [pctChangeAux, ih]

theorem pctChange_length (cs : List ℚ) : (pctChange cs).length = cs.length := by
  cases cs with
  | nil => rfl
  | cons c cs => simp [pctChange, pctChangeAux_length]

theorem pctChangeAux_get? (cs : List ℚ) :
    ∀ (prev : ℚ) (i : Nat) (p c : ℚ), (prev :: cs).get? i = some p →
      cs.get? i = some c →
      (pctChangeAux prev cs).get? i = some (some (c / p - 1)) := by
  induction cs with
  | nil =>
    intro prev i p c _ h2
    simp at h2
  | cons y ys ih =>
    intro prev i p c h1 h2
    cases i with
    | zero =>
      simp at h1 h2
      subst h1; subst h2
      rfl
    | succ i =>
      simp only [List.get?_cons_succ] at h1 h2
      simpa [pctChangeAux] using ih y i p c h1 h2

/-- C6: for every non-empty price series, the derived return series has a
missing value at its first entry, and for every index i greater than 0 the
return at i equals close[i]/close[i-1] - 1 (pct_change semantics,
MassStatistics.py lines 15-16 / statistics.py lines 15-17 /
attempt3.py lines 16-17). -/
theorem claim_C6 (rows : List PriceRow) (hne : rows ≠ []) :
    (pctChange (rows.map PriceRow.close)).get? 0 = some none ∧
    ∀ i p c, (rows.map PriceRow.close).get? i = some p →
      (rows.map PriceRow.close).get? (i + 1) = some c →
      (pctChange (rows.map PriceRow.close)).get? (i + 1) = some (some (c / p - 1)) := by
  cases rows with
  | nil => exact absurd rfl hne
  | cons r rest =>
    constructor
    · rfl
    · intro i p c h1 h2
      simp only [List.map_cons, List.get?_cons_succ] at h2
      simpa [pctChange] using pctChangeAux_get? _ _ i p c h1 h2

theorem claim_C6_witness :
    (pctChange (([⟨0, 2, 1⟩, ⟨1, 3, 1⟩] : List PriceRow).map PriceRow.close)).get? 0
        = some none ∧
    (pctChange (([⟨0, 2, 1⟩, ⟨1, 3, 1⟩] : List PriceRow).map PriceRow.close)).get? 1
        = some (some ((3 : ℚ) / 2 - 1)) :=
  ⟨(claim_C6 [⟨0, 2, 1⟩, ⟨1, 3, 1⟩] (by decide)).1,
   (claim_C6 [⟨0, 2, 1⟩, ⟨1, 3, 1⟩] (by decide)).2 0 2 3 (by decide) (by decide)⟩

/-- get_event_window (MassStatistics.py lines 34-37, statistics.py
lines 19-26): slice the date-indexed series to
[event_date - window, event_date + window], both ends included, and pair it
with the day offsets (index - event_date).days. The embedding is generic in
the row type via the date projection dateOf. -/
def get_event_window {α : Type} (dateOf : α → Int) (data : List α)
    (event_date window : Int) : List α × List Int :=
  let sliced := data.filter (fun r =>
    decide (event_date - window ≤ dateOf r) && decide (dateOf r ≤ event_date + window))
  (sliced, sliced.map (fun r => dateOf r - event_date))

/-- C7: every row returned by the event-window extractor has its date within
[A - W, A + W] inclusive, the parallel day-offset sequence holds exactly
date - A for the row at the same position, and every in-range row of the
input appears in the output. The slice places no condition on the anchor
date being present in the series, so the guarantee holds also when A is
absent (edge policy of the spec). -/
theorem claim_C7 {α : Type} (dateOf : α → Int) (data : List α) (A W : Int) :
    (∀ r ∈ (get_event_window dateOf data A W).1,
      A - W ≤ dateOf r ∧ dateOf r ≤ A + W) ∧
    (∀ i r, (get_event_window dateOf data A W).1.get? i = some r →
      (get_event_window dateOf data A W).2.get? i = some (dateOf r - A)) ∧
    (∀ r ∈ data, A - W ≤ dateOf r → dateOf r ≤ A + W →
      r ∈ (get_event_window dateOf data A W).1) := by
  refine ⟨?_, ?_, ?_⟩
  · intro r hr
    simp only [get_event_window, List.mem_filter, Bool.and_eq_true,
      decide_eq_true_eq] at hr
    exact hr.2
  · intro i r hr
    simp only [get_event_window] at hr ⊢
    rw [List.get?_map, hr]
    rfl
  · intro r hr h1 h2
    simp only [get_event_window, List.mem_filter, Bool.and_eq_true,
      decide_eq_true_eq]
    exact ⟨hr, h1, h2⟩

theorem claim_C7_witness :
    (3 : Int) ∈ (get_event_window (fun d : Int => d) [0, 3, 20] 1 2).1 :=
  (claim_C7 (fun d : Int => d) [0, 3, 20] 1 2).2.2 3 (by decide) (by decide) (by decide)

/-- Option-valued subtraction with missing-value (NaN) propagation: the
difference of two float columns is missing wherever either operand is. -/
def optSub : Option ℚ → Option ℚ → Option ℚ
  | some a, some b => some (a - b)
  | _, _ => none

/-- Tail of Series.cumsum with the pandas default skipna semantics: a
missing entry stays missing in the output and leaves the running
accumulator acc unchanged; a present entry is added to the accumulator. -/
def cumsumAux (acc : ℚ) : List (Option ℚ) → List (Option ℚ)
  | [] => []
  | none :: xs => none :: cumsumAux acc xs
  | some x :: xs => some (acc + x) :: cumsumAux (acc + x) xs

/-- Series.cumsum() as used for Cumulative_Abnormal_Returns
(MassStatistics.py line 30, statistics.py line 37). -/
def cumsum (xs : List (Option ℚ)) : List (Option ℚ) := cumsumAux 0 xs

theorem cumsumAux_length : ∀ (xs : List (Option ℚ)) (acc : ℚ),
    (cumsumAux acc xs).length = xs.length := by
  intro xs
  induction xs with
  | nil => intro acc; rfl
  | cons x xs ih => intro acc; cases x <;> simp [cumsumAux, ih]

theorem cumsumAux_get?_some : ∀ (xs : List (Option ℚ)) (acc : ℚ) (k : Nat) (c : ℚ),
    (cumsumAux acc xs).get? k = some (some c) →
    c = acc + ((xs.take (k + 1)).filterMap id).sum := by
  intro xs
  induction xs with
  | nil => intro acc k c h; simp [cumsumAux] at h
  | cons x xs ih =>
    intro acc k c h
    cases x with
    | none =>
      cases k with
      | zero => simp [cumsumAux] at h
      | succ k =>
        simp only [cumsumAux, List.get?_cons_succ] at h
        simpa [List.filterMap_cons] using ih acc k c h
    | some v =>
      cases k with
      | zero =>
        simp [cumsumAux] at h
        simp [List.filterMap_cons, ← h]
      | succ k =>
        simp only [cumsumAux, List.get?_cons_succ] at h
        have hv := ih (acc + v) k c h
        simp only [List.take_succ_cons, List.filterMap_cons, id, List.sum_cons]
        rw [hv]; ring

namespace MassStats

/-- One row of the merged frame built by calculate_returns
(MassStatistics.py lines 13-32): Stock_Returns, Market_Returns,
Abnormal_Returns and Cumulative_Abnormal_Returns columns on the joined
date index. -/
structure MergedRow where
  date : Int
  stockRet : Option ℚ
  marketRet : Option ℚ
  abnormal : Option ℚ
  car : Option ℚ
deriving DecidableEq, Repr

/-- The date-indexed Returns column of a frame after
data[Returns] = data[Close].pct_change(): every date of the input keeps a
row, the first with a missing return. -/
def returnsSeries (rows : List PriceRow) : List (Int × Option ℚ) :=
  (rows.map PriceRow.date).zip (pctChange (rows.map PriceRow.close))

/-- pd.merge(stock_returns, market_returns, left_index, right_index):
default inner join on the date index, keeping left order; a date survives
exactly when the right series also carries it. -/
def innerJoin (s m : List (Int × Option ℚ)) :
    List (Int × Option ℚ × Option ℚ) :=
  s.filterMap (fun p =>
    (m.find? (fun q => decide (q.1 = p.1))).map (fun q => (p.1, p.2, q.2)))

/-- Reassemble the merged frame from its joined key columns and the two
derived columns (Abnormal_Returns, Cumulative_Abnormal_Returns). -/
def zipRows : List (Int × Option ℚ × Option ℚ) → List (Option ℚ) →
    List (Option ℚ) → List MergedRow
  | j :: js, a :: bs, c :: cs => ⟨j.1, j.2.1, j.2.2, a, c⟩ :: zipRows js bs cs
  | _, _, _ => []

/-- calculate_returns (MassStatistics.py lines 13-32), merged-frame result:
derive Returns on both frames by pct_change, inner-join on date,
subtract to get Abnormal_Returns, and take the skipna running cumulative
sum for Cumulative_Abnormal_Returns. -/
def calculate_returns (stockRows marketRows : List PriceRow) : List MergedRow :=
  let s := returnsSeries stockRows
  let m := returnsSeries marketRows
  let j := innerJoin s m
  let ab := j.map (fun r => optSub r.2.1 r.2.2)
  zipRows j ab (cumsum ab)

theorem returnsSeries_map_fst (rows : List PriceRow) :
    (returnsSeries rows).map Prod.fst = rows.map PriceRow.date := by
  unfold returnsSeries
  rw [List.map_fst_zip]
  simp [pctChange_length]

theorem zipRows_get? : ∀ (j : List (Int × Option ℚ × Option ℚ))
    (a c : List (Option ℚ)) (k : Nat) (r : MergedRow),
    (zipRows j a c).get? k = some r →
    j.get? k = some (r.date, r.stockRet, r.marketRet) ∧
      a.get? k = some r.abnormal ∧ c.get? k = some r.car := by
  intro j
  induction j with
  | nil => intro a c k r h; simp [zipRows] at h
  | cons jj js ih =>
    intro a c k r h
    cases a with
    | nil => simp [zipRows] at h
    | cons aa bs =>
      cases c with
      | nil => simp [zipRows] at h
      | cons cc cs =>
        cases k with
        | zero =>
          simp only [zipRows, List.get?_cons_zero, Option.some.injEq] at h
          subst h
          exact ⟨rfl, rfl, rfl⟩
        | succ k =>
          simp only [zipRows, List.get?_cons_succ] at h ⊢
          exact ih bs cs k r h

theorem zipRows_take : ∀ (n : Nat) (j : List (Int × Option ℚ × Option ℚ))
    (a c : List (Option ℚ)),
    (zipRows j a c).take n = zipRows (j.take n) (a.take n) (c.take n) := by
  intro n
  induction n with
  | zero => intro j a c; rfl
  | succ n ih =>
    intro j a c
    cases j with
    | nil => rfl
    | cons jj js =>
      cases a with
      | nil => rfl
      | cons aa bs =>
        cases c with
        | nil => rfl
        | cons cc cs => simp [zipRows, ih]

theorem zipRows_filterMap_abnormal :
    ∀ (j : List (Int × Option ℚ × Option ℚ)) (a c : List (Option ℚ)),
    j.length = a.length → a.length = c.length →
    (zipRows j a c).filterMap MergedRow.abnormal = a.filterMap id := by
  intro j
  induction j with
  | nil =>
    intro a c h1 _
    cases a with
    | nil => rfl
    | cons aa bs => simp at h1
  | cons jj js ih =>
    intro a c h1 h2
    cases a with
    | nil => simp at h1
    | cons aa bs =>
      cases c with
      | nil => simp at h2
      | cons cc cs =>
        have h1' : js.length = bs.length := by simpa using h1
        have h2' : bs.length = cs.length := by simpa using h2
        cases aa with
        | none => simpa [zipRows, List.filterMap_cons] using ih bs cs h1' h2'
        | some x => simp [zipRows, List.filterMap_cons, ih bs cs h1' h2']

theorem zipRows_map_date : ∀ (j : List (Int × Option ℚ × Option ℚ))
    (a c : List (Option ℚ)),
    j.length = a.length → a.length = c.length →
    (zipRows j a c).map MergedRow.date = j.map Prod.fst := by
  intro j
  induction j with
  | nil =>
    intro a c _ _
    rfl
  | cons jj js ih =>
    intro a c h1 h2
    cases a with
    | nil => simp at h1
    | cons aa bs =>
      cases c with
      | nil => simp at h2
      | cons cc cs =>
        have h1' : js.length = bs.length := by simpa using h1
        have h2' : bs.length = cs.length := by simpa using h2
        simp [zipRows, ih bs cs h1' h2']

theorem zipRows_mem_abnormal :
    ∀ (j : List (Int × Option ℚ × Option ℚ))
      (f : Int × Option ℚ × Option ℚ → Option ℚ)
      (c : List (Option ℚ)) (r : MergedRow),
    r ∈ zipRows j (j.map f) c →
    (r.date, r.stockRet, r.marketRet) ∈ j ∧
      r.abnormal = f (r.date, r.stockRet, r.marketRet) := by
  intro j f
  induction j with
  | nil => intro c r h; simp [zipRows] at h
  | cons jj js ih =>
    intro c r h
    cases c with
    | nil => simp [zipRows, List.map_cons] at h
    | cons cc cs =>
      simp only [List.map_cons, zipRows, List.mem_cons] at h
      rcases h with h | h
      · subst h
        exact ⟨List.mem_cons_self _ _, rfl⟩
      · rcases ih cs r h with ⟨hmem, habn⟩
        exact ⟨List.mem_cons_of_mem _ hmem, habn⟩

theorem innerJoin_mem {s m : List (Int × Option ℚ)}
    {x : Int × Option ℚ × Option ℚ} (hx : x ∈ innerJoin s m) :
    x.1 ∈ s.map Prod.fst ∧ x.1 ∈ m.map Prod.fst := by
  simp only [innerJoin, List.mem_filterMap] at hx
  rcases hx with ⟨p, hp, hfind⟩
  rcases Option.map_eq_some'.mp hfind with ⟨q, hq, hxq⟩
  have hqm := List.mem_of_find?_eq_some hq
  have hqd : q.1 = p.1 := by simpa using List.find?_some hq
  subst hxq
  exact ⟨List.mem_map_of_mem Prod.fst hp, by
    simpa [hqd] using List.mem_map_of_mem Prod.fst hqm⟩

theorem innerJoin_mem_of_both {s m : List (Int × Option ℚ)} {d : Int}
    (hs : d ∈ s.map Prod.fst) (hm : d ∈ m.map Prod.fst) :
    d ∈ (innerJoin s m).map Prod.fst := by
  rcases List.mem_map.mp hs with ⟨p, hp, hpd⟩
  rcases List.mem_map.mp hm with ⟨q, hq, hqd⟩
  have hsome : (m.find? (fun q => decide (q.1 = p.1))).isSome := by
    rw [List.find?_isSome]
    exact ⟨q, hq, by simp [hqd, hpd]⟩
  rcases Option.isSome_iff_exists.mp hsome with ⟨q', hq'⟩
  refine List.mem_map.mpr ⟨(p.1, p.2, q'.2), ?_, hpd⟩
  exact List.mem_filterMap.mpr ⟨p, hp, by rw [hq']; rfl⟩

theorem calculate_returns_lengths (stockRows marketRows : List PriceRow) :
    (innerJoin (returnsSeries stockRows) (returnsSeries marketRows)).length
        = ((innerJoin (returnsSeries stockRows) (returnsSeries marketRows)).map
            (fun r => optSub r.2.1 r.2.2)).length ∧
    ((innerJoin (returnsSeries stockRows) (returnsSeries marketRows)).map
        (fun r => optSub r.2.1 r.2.2)).length
      = (cumsum ((innerJoin (returnsSeries stockRows) (returnsSeries marketRows)).map
          (fun r => optSub r.2.1 r.2.2))).length := by
  constructor
  · simp
  · simp [cumsum, cumsumAux_length]

end MassStats

/-- C3 counterexample to the missing-value exclusion conjunct: with two
price series sharing dates 0 and 1, date 0 has a missing return in both
derived ReturnSeries, yet the joined frame of calculate_returns keeps a row
for date 0 whose abnormal return is null (missing) — the join is on dates,
not on non-missing returns, so such dates are not excluded. -/
theorem claim_C3_counterexample :
    (MassStats.returnsSeries [⟨0, 100, 1⟩, ⟨1, 110, 1⟩]).head? = some (0, none) ∧
    (MassStats.returnsSeries [⟨0, 50, 1⟩, ⟨1, 55, 1⟩]).head? = some (0, none) ∧
    (MassStats.calculate_returns [⟨0, 100, 1⟩, ⟨1, 110, 1⟩]
        [⟨0, 50, 1⟩, ⟨1, 55, 1⟩]).head? = some ⟨0, none, none, none, none⟩ := by
  decide

/-- C3 (amended): every date of the joined AbnormalReturnSeries is present
in both input series and every date present in both inputs appears in the
join; a date at which either input return is missing is kept in the join
with a missing abnormal return (optSub propagates the missing value), and
it is the cumulative sum and the significance test that skip such
entries downstream. -/
theorem claim_C3_amended (stockRows marketRows : List PriceRow) :
    (∀ r ∈ MassStats.calculate_returns stockRows marketRows,
        r.date ∈ stockRows.map PriceRow.date ∧
        r.date ∈ marketRows.map PriceRow.date) ∧
    (∀ d : Int, d ∈ stockRows.map PriceRow.date →
        d ∈ marketRows.map PriceRow.date →
        d ∈ (MassStats.calculate_returns stockRows marketRows).map
          MassStats.MergedRow.date) ∧
    (∀ r ∈ MassStats.calculate_returns stockRows marketRows,
        r.abnormal = optSub r.stockRet r.marketRet) := by
  have hs := MassStats.returnsSeries_map_fst stockRows
  have hm := MassStats.returnsSeries_map_fst marketRows
  refine ⟨?_, ?_, ?_⟩
  · intro r hr
    have hmem := (MassStats.zipRows_mem_abnormal _ _ _ r hr).1
    have := MassStats.innerJoin_mem hmem
    rw [hs, hm] at this
    exact this
  · intro d hds hdm
    rw [← hs] at hds
    rw [← hm] at hdm
    have hj := MassStats.innerJoin_mem_of_both hds hdm
    unfold MassStats.calculate_returns
    rcases MassStats.calculate_returns_lengths stockRows marketRows with ⟨h1, h2⟩
    rw [MassStats.zipRows_map_date _ _ _ h1 h2]
    exact hj
  · intro r hr
    exact (MassStats.zipRows_mem_abnormal _ _ _ r hr).2

theorem claim_C3_amended_witness :
    (0 : Int) ∈ (MassStats.calculate_returns [⟨0, 100, 1⟩, ⟨1, 110, 1⟩]
        [⟨0, 50, 1⟩, ⟨1, 55, 1⟩]).map MassStats.MergedRow.date :=
  (claim_C3_amended [⟨0, 100, 1⟩, ⟨1, 110, 1⟩] [⟨0, 50, 1⟩, ⟨1, 55, 1⟩]).2.1
    0 (by decide) (by decide)

/-- C5: the cumulative abnormal return is a skipna prefix sum — whenever
row k of the merged frame carries a present cumulative value c, c equals
the sum of the non-missing abnormal returns of rows 0..k in date order
(MassStatistics.py line 30 / statistics.py line 37). -/
theorem claim_C5 (stockRows marketRows : List PriceRow) (k : Nat)
    (r : MassStats.MergedRow) (c : ℚ)
    (hget : (MassStats.calculate_returns stockRows marketRows).get? k = some r)
    (hcar : r.car = some c) :
    c = (((MassStats.calculate_returns stockRows marketRows).take (k + 1)).filterMap
      MassStats.MergedRow.abnormal).sum := by
  rcases MassStats.calculate_returns_lengths stockRows marketRows with ⟨h1, h2⟩
  unfold MassStats.calculate_returns at hget ⊢
  rcases MassStats.zipRows_get? _ _ _ k r hget with ⟨-, -, hcs⟩
  rw [hcar] at hcs
  have hsum := cumsumAux_get?_some _ 0 k c hcs
  rw [MassStats.zipRows_take, MassStats.zipRows_filterMap_abnormal _ _ _
    (by simp [h1.symm]) (by simp [h2.symm, cumsum, cumsumAux_length])]
  simpa using hsum

theorem claim_C5_witness :
    (0 : ℚ) = (((MassStats.calculate_returns [⟨0, 100, 1⟩, ⟨1, 110, 1⟩]
        [⟨0, 50, 1⟩, ⟨1, 55, 1⟩]).take 2).filterMap
      MassStats.MergedRow.abnormal).sum :=
  claim_C5 [⟨0, 100, 1⟩, ⟨1, 110, 1⟩] [⟨0, 50, 1⟩, ⟨1, 55, 1⟩] 1
    ⟨1, some (1 / 10), some (1 / 10), some 0, some 0⟩ 0
    (by norm_num [MassStats.calculate_returns, MassStats.returnsSeries,
      MassStats.innerJoin, MassStats.zipRows, pctChange, pctChangeAux, optSub,
      cumsum, cumsumAux, List.filterMap_cons, List.find?]) rfl

/-- A stock frame row after the Returns column was derived
(stock_data with Close, Volume and Returns columns). -/
structure StockRow where
  date : Int
  close : ℚ
  volume : ℚ
  ret : Option ℚ
deriving DecidableEq, Repr

/-- Annotate a raw price series with its pct_change Returns column,
row-aligned (the frame view after stock_data[Returns] = ... pct_change). -/
def annotateReturns (rows : List PriceRow) : List StockRow :=
  List.zipWith (fun r o => ⟨r.date, r.close, r.volume, o⟩) rows
    (pctChange (rows.map PriceRow.close))

/-- External statistical collaborators: scipy.stats.ttest_1samp (sample and
population mean in, statistic and p-value out, missing when the library
yields NaN) and pandas Series.std applied to the non-missing values. -/
structure Externals where
  ttest : List ℚ → ℚ → Option (ℚ × ℚ)
  std : List ℚ → Option ℚ

/-- pandas Series.mean(): missing (NaN) on an empty selection, else the
arithmetic mean. -/
def seriesMean (xs : List ℚ) : Option ℚ :=
  if xs.isEmpty then none else some (xs.sum / xs.length)

theorem zip_map_filter_fst {α β : Type} (l : List α) (f : α → β) (q : β → Bool) :
    ((l.zip (l.map f)).filter (fun p => q p.2)).map Prod.fst
      = l.filter (fun r => q (f r)) := by
  induction l with
  | nil => rfl
  | cons x xs ih =>
    simp only [List.map_cons, List.zip_cons_cons, List.filter_cons]
    cases hq : q (f x) <;> simp [hq, ih]

namespace MassStats

/-- Pre-event partition of the stock frame used for volatility and volume
(MassStatistics.py lines 41-42, 56, 62): dates in
[event_date - window, event_date - 1]. -/
def preWindowRows (stock : List StockRow) (ed window : Int) : List StockRow :=
  stock.filter (fun r => decide (ed - window ≤ r.date) && decide (r.date ≤ ed - 1))

/-- Post-event partition of the stock frame (MassStatistics.py
lines 43-44, 57, 63): dates in [event_date + 1, event_date + window]. -/
def postWindowRows (stock : List StockRow) (ed window : Int) : List StockRow :=
  stock.filter (fun r => decide (ed + 1 ≤ r.date) && decide (r.date ≤ ed + window))

/-- The post-event abnormal-return sample handed to the one-sample t-test
(MassStatistics.py lines 49 and 52): slice the merged event window by the
positional mask days greater-or-equal 0, take Abnormal_Returns, dropna. -/
def postSample (merged : List MergedRow) (ed window : Int) : List ℚ :=
  let ewd := get_event_window MergedRow.date merged ed window
  (((ewd.1.zip ewd.2).filter (fun p => decide (0 ≤ p.2))).map Prod.fst).filterMap
    MergedRow.abnormal

/-- One appended record of the module-level summary_rows accumulator
(MassStatistics.py lines 65-76). The source stores presentation-rounded
copies of these quantities; rounding is display formatting and is not
modelled. -/
structure SummaryRow where
  ticker : String
  window : Int
  eventDate : Int
  carPost : ℚ
  tTest : Option (ℚ × ℚ)
  volPre : Option ℚ
  volPost : Option ℚ
  volumePre : Option ℚ
  volumePost : Option ℚ
deriving DecidableEq, Repr

/-- analyze_event (MassStatistics.py lines 39-78): build the merged event
window and its day offsets, run the one-sample t-test against mean 0 on the
post-event abnormal returns, compute pre/post volatility (std of returns,
an external) and mean volume on the strict pre/post partitions, and return
the summary record together with the per-event charting outputs
(ew, days, pre_R, post_R). The source also computes a CAR over the full
window (line 48) that no later code reads; it is not modelled. Its
CAR_post equals the sum of the dropna sample because Series.sum skips
missing values. -/
def analyze_event (ext : Externals) (stock : List StockRow)
    (merged : List MergedRow) (ed window : Int) (ticker : String) :
    SummaryRow × List MergedRow × List Int × List ℚ × List ℚ :=
  let ewd := get_event_window MergedRow.date merged ed window
  let ar_post := postSample merged ed window
  let t := ext.ttest ar_post 0
  let preRows := preWindowRows stock ed window
  let postRows := postWindowRows stock ed window
  let pre_R := preRows.filterMap StockRow.ret
  let post_R := postRows.filterMap StockRow.ret
  (⟨ticker, window, ed, ar_post.sum, t, ext.std pre_R, ext.std post_R,
      seriesMean (preRows.map StockRow.volume),
      seriesMean (postRows.map StockRow.volume)⟩,
    ewd.1, ewd.2, pre_R, post_R)

/-- Modelled from the spec wording of the SignificanceTester input (4.4),
not from code: the abnormal returns of the event window restricted to rows
with day offset at least 0, missing values excluded. -/
def specPostSample (merged : List MergedRow) (ed window : Int) : List ℚ :=
  ((get_event_window MergedRow.date merged ed window).1.filter
    (fun r => decide (0 ≤ r.date - ed))).filterMap MergedRow.abnormal

theorem postSample_eq_spec (merged : List MergedRow) (ed window : Int) :
    postSample merged ed window = specPostSample merged ed window := by
  unfold postSample specPostSample get_event_window
  exact congrArg (List.filterMap MergedRow.abnormal)
    (zip_map_filter_fst _ _ (fun o => decide (0 ≤ o)))

end MassStats

namespace StatsPy

/-- statistics.py lines 50-51: the pre-event slice
loc[event_start:event_date], both bounds inclusive, event_start being
event_date - window. -/
def pre_event_rows (stock : List StockRow) (ed window : Int) : List StockRow :=
  stock.filter (fun r => decide (ed - window ≤ r.date) && decide (r.date ≤ ed))

/-- statistics.py lines 50-51: the post-event slice
loc[event_date:event_end], both bounds inclusive. -/
def post_event_rows (stock : List StockRow) (ed window : Int) : List StockRow :=
  stock.filter (fun r => decide (ed ≤ r.date) && decide (r.date ≤ ed + window))

/-- pre_event_returns of statistics.py line 50 (slice then dropna). -/
def pre_event_returns (stock : List StockRow) (ed window : Int) : List ℚ :=
  (pre_event_rows stock ed window).filterMap StockRow.ret

/-- post_event_returns of statistics.py line 51 (slice then dropna). -/
def post_event_returns (stock : List StockRow) (ed window : Int) : List ℚ :=
  (post_event_rows stock ed window).filterMap StockRow.ret

end StatsPy

/-- C2 counterexample: the statistics.py variant of the volatility
comparison slices pre as [ed - w, ed] and post as [ed, ed + w], so a
series trading on the event date itself puts that date in both partitions
— they overlap and both contain the anchor, against the claim. -/
theorem claim_C2_counterexample :
    ((StatsPy.pre_event_rows [⟨5, 100, 1, none⟩] 5 3).map StockRow.date).contains 5
        = true ∧
    ((StatsPy.post_event_rows [⟨5, 100, 1, none⟩] 5 3).map StockRow.date).contains 5
        = true := by
  decide

/-- C2 (amended): in the MassStatistics analyzer the pre partition
[ed - w, ed - 1] and the post partition [ed + 1, ed + w] are disjoint in
dates and neither contains the event date; the statistics.py variant
instead uses the inclusive bounds [ed - w, ed] and [ed, ed + w], which
share exactly the event date whenever the series trades on it. -/
theorem claim_C2_amended (stock : List StockRow) (ed window : Int) :
    (∀ r ∈ MassStats.preWindowRows stock ed window, r.date ≠ ed) ∧
    (∀ r ∈ MassStats.postWindowRows stock ed window, r.date ≠ ed) ∧
    (∀ r ∈ MassStats.preWindowRows stock ed window,
      ∀ q ∈ MassStats.postWindowRows stock ed window, r.date ≠ q.date) := by
  refine ⟨?_, ?_, ?_⟩
  · intro r hr
    simp only [MassStats.preWindowRows, List.mem_filter, Bool.and_eq_true,
      decide_eq_true_eq] at hr
    omega
  · intro r hr
    simp only [MassStats.postWindowRows, List.mem_filter, Bool.and_eq_true,
      decide_eq_true_eq] at hr
    omega
  · intro r hr q hq
    simp only [MassStats.preWindowRows, MassStats.postWindowRows,
      List.mem_filter, Bool.and_eq_true, decide_eq_true_eq] at hr hq
    omega

theorem claim_C2_amended_witness :
    (⟨4, 100, 1, none⟩ : StockRow).date ≠ 5 :=
  (claim_C2_amended [⟨4, 100, 1, none⟩] 5 3).1 ⟨4, 100, 1, none⟩ (by decide)

/-- C4: the sample handed to the one-sample significance test is exactly
the abnormal returns of the event window at day offsets at least 0 (the
post-event portion including the event day) with missing values excluded,
and the population mean the call compares against is 0
(MassStatistics.py lines 51-53). -/
theorem claim_C4 (ext : Externals) (stock : List StockRow)
    (merged : List MassStats.MergedRow) (ed window : Int) (ticker : String) :
    (MassStats.analyze_event ext stock merged ed window ticker).1.tTest
      = ext.ttest (MassStats.specPostSample merged ed window) 0 := by
  show ext.ttest (MassStats.postSample merged ed window) 0 = _
  rw [MassStats.postSample_eq_spec]

/-- A pandas DataFrame as the callers of the scripts see it: the raw price
rows plus the derived float columns added to the object so far, in
insertion order. Assigning data[name] = values overwrites the column if
present and appends it otherwise (setCol below). -/
structure DataFrame where
  rows : List PriceRow
  extraCols : List (String × List (Option ℚ))
deriving DecidableEq, Repr

/-- Column assignment data[name] = v: overwrite in place when the column
exists, append at the end otherwise. -/
def setCol (cols : List (String × List (Option ℚ))) (name : String)
    (v : List (Option ℚ)) : List (String × List (Option ℚ)) :=
  if cols.any (fun p => p.1 == name) then
    cols.map (fun p => if p.1 == name then (name, v) else p)
  else cols ++ [(name, v)]

namespace MassStats

/-- One entry of the module-level events list
(MassStatistics.py lines 158-252). -/
structure EventSpec where
  ticker : String
  eventDate : Int
deriving DecidableEq, Repr

/-- The body of the per-event batch loop (MassStatistics.py lines 262-291):
skip when the data source returned an empty stock or market frame, skip
when the event date is absent from the stock index, otherwise run
analyze_event and append its record to the accumulator. calculate_rsi only
adds an RSI column to the stock frame (see calculate_rsi below) and
contributes nothing to the summary record. -/
def runBatchStep (ext : Externals) (ds : String → List PriceRow)
    (market : List PriceRow) (w : Int) (acc : List SummaryRow)
    (ev : EventSpec) : List SummaryRow :=
  let stockRows := ds ev.ticker
  if stockRows.isEmpty || market.isEmpty then acc
  else
    let stock := annotateReturns stockRows
    let merged := calculate_returns stockRows market
    if (stockRows.map PriceRow.date).contains ev.eventDate then
      acc ++ [(analyze_event ext stock merged ev.eventDate w ev.ticker).1]
    else acc

/-- The batch loop over one window size (MassStatistics.py lines 260-293),
accumulating summary_rows from an empty start. -/
def runBatch (ext : Externals) (ds : String → List PriceRow)
    (market : List PriceRow) (events : List EventSpec) (w : Int) :
    List SummaryRow :=
  events.foldl (runBatchStep ext ds market w) []

/-- The two validations an event must pass to be recorded: non-empty stock
and market data, and the event date present in the stock index. -/
def eventValidated (ds : String → List PriceRow) (market : List PriceRow)
    (ev : EventSpec) : Bool :=
  !(ds ev.ticker).isEmpty && !market.isEmpty &&
    ((ds ev.ticker).map PriceRow.date).contains ev.eventDate

theorem runBatchStep_skip (ext : Externals) (ds : String → List PriceRow)
    (market : List PriceRow) (w : Int) (acc : List SummaryRow) (ev : EventSpec)
    (h : eventValidated ds market ev = false) :
    runBatchStep ext ds market w acc ev = acc := by
  unfold eventValidated at h
  simp only [runBatchStep]
  rcases Bool.and_eq_false_iff.mp h with h1 | h2
  · rcases Bool.and_eq_false_iff.mp h1 with ha | hb
    · have : (ds ev.ticker).isEmpty = true := by
        cases hx : (ds ev.ticker).isEmpty <;> simp [hx] at ha ⊢
      rw [this]
      simp
    · have : market.isEmpty = true := by
        cases hx : market.isEmpty <;> simp [hx] at hb ⊢
      rw [this]
      simp
  · rw [h2]
    simp

theorem runBatchStep_record (ext : Externals) (ds : String → List PriceRow)
    (market : List PriceRow) (w : Int) (acc : List SummaryRow) (ev : EventSpec)
    (h : eventValidated ds market ev = true) :
    runBatchStep ext ds market w acc ev
      = acc ++ [(analyze_event ext (annotateReturns (ds ev.ticker))
          (calculate_returns (ds ev.ticker) market) ev.eventDate w ev.ticker).1] := by
  unfold eventValidated at h
  rcases Bool.and_eq_true_iff.mp h with ⟨h12, hc⟩
  rcases Bool.and_eq_true_iff.mp h12 with ⟨h1, h2⟩
  have he1 : (ds ev.ticker).isEmpty = false := by
    cases hx : (ds ev.ticker).isEmpty <;> simp [hx] at h1 ⊢
  have he2 : market.isEmpty = false := by
    cases hx : market.isEmpty <;> simp [hx] at h2 ⊢
  simp only [runBatchStep]
  rw [he1, he2, hc]
  simp

theorem runBatch_foldl_length (ext : Externals) (ds : String → List PriceRow)
    (market : List PriceRow) (w : Int) :
    ∀ (events : List EventSpec) (acc : List SummaryRow),
    (events.foldl (runBatchStep ext ds market w) acc).length
      = acc.length + (events.filter (eventValidated ds market)).length := by
  intro events
  induction events with
  | nil => intro acc; simp
  | cons ev evs ih =>
    intro acc
    simp only [List.foldl_cons, List.filter_cons]
    cases hv : eventValidated ds market ev
    · rw [runBatchStep_skip ext ds market w acc ev hv, ih acc]
      simp
    · rw [runBatchStep_record ext ds market w acc ev hv, ih]
      simp
      omega

theorem filter_disjoint_length_le {α : Type} (p q : α → Bool) (l : List α)
    (h : ∀ a, p a = true → q a = false) :
    (l.filter p).length + (l.filter q).length ≤ l.length := by
  induction l with
  | nil => simp
  | cons x xs ih =>
    simp only [List.filter_cons]
    cases hp : p x
    · cases hq : q x <;> simp [List.length_cons] <;> omega
    · rw [h x hp]
      simp [List.length_cons]
      omega

/-- calculate_returns at the caller-visible frame level
(MassStatistics.py lines 13-16): the Returns column is assigned onto both
caller frames in place before the merge; these are the states of the two
argument frames after the call. -/
def calculate_returns_frames (stock market : DataFrame) :
    DataFrame × DataFrame :=
  ({ stock with extraCols := (setCol stock.extraCols "Returns"
      (pctChange (stock.rows.map PriceRow.close))) },
   { market with extraCols := (setCol market.extraCols "Returns"
      (pctChange (market.rows.map PriceRow.close))) })

/-- Series.diff(1) tail: difference with the previous close prev. -/
def diff1Aux (prev : ℚ) : List ℚ → List (Option ℚ)
  | [] => []
  | c :: cs => some (c - prev) :: diff1Aux c cs

/-- Series.diff(1) on the close column (MassStatistics.py line 81). -/
def diff1 : List ℚ → List (Option ℚ)
  | [] => []
  | c :: cs => none :: diff1Aux c cs

/-- delta.where(delta greater than 0, 0): keep positive moves, others
(including the leading missing diff, whose comparison is false) become 0. -/
def gainOf : Option ℚ → ℚ
  | some x => if 0 < x then x else 0
  | none => 0

/-- minus delta.where(delta less than 0, 0): magnitude of negative moves,
others become 0. -/
def lossOf : Option ℚ → ℚ
  | some x => if x < 0 then -x else 0
  | none => 0

/-- rolling(window, min_periods 1).mean(): trailing mean over the last
up-to-window entries, defined from the first row on. -/
def rollingMean1 (w : Nat) (xs : List ℚ) : List ℚ :=
  (List.range xs.length).map (fun i =>
    let seg := (xs.take (i + 1)).drop (i + 1 - w)
    seg.sum / seg.length)

/-- 100 - 100/(1 + g/l) in float semantics: an all-zero loss average gives
infinite rs hence RSI 100 when gains exist, and NaN (missing) on 0/0. -/
def rsiVal (g l : ℚ) : Option ℚ :=
  if l = 0 then (if g = 0 then none else some 100)
  else some (100 - 100 / (1 + g / l))

/-- calculate_rsi (MassStatistics.py lines 80-89): derives the RSI column
from close diffs and assigns it onto the caller's frame in place. -/
def calculate_rsi (data : DataFrame) (window : Nat) : DataFrame :=
  let delta := diff1 (data.rows.map PriceRow.close)
  let avg_gain := rollingMean1 window (delta.map gainOf)
  let avg_loss := rollingMean1 window (delta.map lossOf)
  { data with extraCols := (setCol data.extraCols "RSI"
      (List.zipWith rsiVal avg_gain avg_loss)) }

end MassStats

namespace Attempt3

/-- A row of the copied stock frame inside attempt3's analyze_event, after
the Return column was derived (attempt3.py lines 8-17). -/
structure Row where
  date : Int
  close : ℚ
  ret : Option ℚ
deriving DecidableEq, Repr

/-- The local copy with its pct_change Return column, row-aligned. -/
def annotate (rows : List (Int × ℚ)) : List Row :=
  List.zipWith (fun p o => ⟨p.1, p.2, o⟩) rows (pctChange (rows.map Prod.snd))

/-- DataFrame.tail(n): the last n rows (all rows when fewer exist). -/
def tailN {α : Type} (n : Nat) (l : List α) : List α := l.drop (l.length - n)

/-- The result dictionary of attempt3's analyze_event
(attempt3.py lines 56-65). -/
structure Result where
  volatilityBefore : Option ℚ
  volatilityAfter : Option ℚ
  agrBefore : Option ℚ
  agrAfter : Option ℚ
  relReturnBefore : Option ℚ
  relReturnAfter : Option ℚ
  beforeWindow : List Row
  afterWindow : List Row
deriving DecidableEq, Repr

/-- Close.iloc[-1] / Close.iloc[0] - 1 over a window slice
(attempt3.py lines 36-41), with Option guarding the scalar accesses. -/
def ilocRatio (l : List Row) : Option ℚ :=
  match l.head?, l.getLast? with
  | some a, some b => some (b.close / a.close - 1)
  | _, _ => none

/-- analyze_event (attempt3.py lines 7-65): copy the frames, derive
returns, take the last window rows strictly before the event and the first
window rows strictly after it on both stock and benchmark, return none
when any of the four slices is short, else assemble the result record.
The iloc scalar accesses can only miss for window 0, where the source
raises instead of returning; the hasattr unwrapping of lines 44-51 is a
pandas scalar-coercion no-op at this level. std is the external pandas
Series.std applied to the non-missing returns. -/
def analyze_event (std : List ℚ → Option ℚ)
    (df_stock df_sp500 : List (Int × ℚ)) (event_date : Int) (window : Nat) :
    Option Result :=
  let stock := annotate df_stock
  let sp500 := annotate df_sp500
  let before_stock := tailN window (stock.filter (fun r => decide (r.date < event_date)))
  let after_stock := (stock.filter (fun r => decide (event_date < r.date))).take window
  let before_sp500 := tailN window (sp500.filter (fun r => decide (r.date < event_date)))
  let after_sp500 := (sp500.filter (fun r => decide (event_date < r.date))).take window
  if before_stock.length < window ∨ after_stock.length < window ∨
      before_sp500.length < window ∨ after_sp500.length < window then
    none
  else
    let agr_before := ilocRatio before_stock
    let agr_after := ilocRatio after_stock
    some ⟨std (before_stock.filterMap Row.ret), std (after_stock.filterMap Row.ret),
      agr_before, agr_after,
      optSub agr_before (ilocRatio before_sp500),
      optSub agr_after (ilocRatio after_sp500),
      before_stock, after_stock⟩

/-- batch_analyze (attempt3.py lines 66-77): run analyze_event per event,
keep the successful results in input order, skip the none results. -/
def batch_analyze (std : List ℚ → Option ℚ) (events : List (String × Int))
    (stock_data : String → List (Int × ℚ)) (sp500 : List (Int × ℚ))
    (window : Nat) : List (String × Result) :=
  events.foldl (fun acc ev =>
    match analyze_event std (stock_data ev.1) sp500 ev.2 window with
    | some r => acc ++ [(ev.1, r)]
    | none => acc) []

/-- attempt3's analyze_event at the caller-visible frame level
(attempt3.py lines 8-17): the function copies both inputs and derives the
Date and Return columns on the copies only. First component: the caller's
frame after the call (untouched); second: the local copy the function
continues with. -/
def prepare (df : DataFrame) : DataFrame × DataFrame :=
  (df, { df with extraCols := (setCol df.extraCols "Return"
      (pctChange (df.rows.map PriceRow.close))) })

end Attempt3

/-- A concrete external collaborator: both the t-test and the std report a
missing (NaN) statistic, as scipy and pandas do on degenerate samples. -/
def extNone : Externals := ⟨fun _ _ => none, fun _ => none⟩

/-- A concrete data source answering every ticker with a one-row series. -/
def oneRowSource : String → List PriceRow := fun _ => [⟨0, 100, 10⟩]

/-- A concrete one-row market series. -/
def oneRowMarket : List PriceRow := [⟨0, 50, 1⟩]


theorem attempt3_batch_foldl_length (std : List ℚ → Option ℚ)
    (stock_data : String → List (Int × ℚ)) (sp500 : List (Int × ℚ)) (w : Nat) :
    ∀ (events : List (String × Int)) (acc : List (String × Attempt3.Result)),
    (events.foldl (fun acc ev =>
        match Attempt3.analyze_event std (stock_data ev.1) sp500 ev.2 w with
        | some r => acc ++ [(ev.1, r)]
        | none => acc) acc).length
      = acc.length + (events.filter (fun ev =>
          (Attempt3.analyze_event std (stock_data ev.1) sp500 ev.2 w).isSome)).length := by
  intro events
  induction events with
  | nil => intro acc; simp
  | cons ev evs ih =>
    intro acc
    simp only [List.foldl_cons, List.filter_cons]
    cases hres : Attempt3.analyze_event std (stock_data ev.1) sp500 ev.2 w with
    | none => simp [ih]
    | some r =>
      simp [ih]
      omega

/-- C1 counterexample: one event (N = 1) whose data source answer is
non-empty (M = 0) but whose event date 99 is absent from the one-row stock
index: the batch records 0 summaries, not N - M = 1 — the empty-data skip
is not the only way an event drops out of the SummaryTable. -/
theorem claim_C1_counterexample :
    (([⟨"X", 99⟩] : List MassStats.EventSpec).filter
        (fun ev => (oneRowSource ev.ticker).isEmpty)).length = 0 ∧
    ([⟨"X", 99⟩] : List MassStats.EventSpec).length = 1 ∧
    (MassStats.runBatch extNone oneRowSource oneRowMarket [⟨"X", 99⟩] 7).length
      = 0 := by
  decide

/-- C1 (amended): the SummaryTable holds exactly one record per event that
passes both per-event validations (non-empty stock and market data, event
date present in the stock index) — hence at most N - M records for M
empty-data events, with equality exactly when every non-empty event also
has its date present; every other event is skipped and the batch continues
(the embedded batch is a total function of its inputs). The attempt3
variant records exactly the events whose analyze_event returns a result. -/
theorem claim_C1_amended :
    (∀ (ext : Externals) (ds : String → List PriceRow) (market : List PriceRow)
      (events : List MassStats.EventSpec) (w : Int),
      (MassStats.runBatch ext ds market events w).length
        = (events.filter (MassStats.eventValidated ds market)).length ∧
      (events.filter (fun ev => (ds ev.ticker).isEmpty)).length
          + (MassStats.runBatch ext ds market events w).length ≤ events.length) ∧
    (∀ (std : List ℚ → Option ℚ) (events : List (String × Int))
      (stock_data : String → List (Int × ℚ)) (sp500 : List (Int × ℚ)) (w : Nat),
      (Attempt3.batch_analyze std events stock_data sp500 w).length
        = (events.filter (fun ev =>
            (Attempt3.analyze_event std (stock_data ev.1) sp500 ev.2 w).isSome)).length) := by
  constructor
  · intro ext ds market events w
    have hlen := MassStats.runBatch_foldl_length ext ds market w events []
    constructor
    · simpa [MassStats.runBatch] using hlen
    · have hdisj := MassStats.filter_disjoint_length_le
        (MassStats.eventValidated ds market)
        (fun ev => (ds ev.ticker).isEmpty) events ?_
      · simp only [List.length_nil, Nat.zero_add] at hlen
        simp only [MassStats.runBatch]
        omega
      · intro ev hv
        unfold MassStats.eventValidated at hv
        rcases Bool.and_eq_true_iff.mp hv with ⟨h12, _⟩
        rcases Bool.and_eq_true_iff.mp h12 with ⟨h1, _⟩
        show (ds ev.ticker).isEmpty = false
        cases hx : (ds ev.ticker).isEmpty
        · rfl
        · rw [hx] at h1; simp at h1
  · intro std events stock_data sp500 w
    simpa [Attempt3.batch_analyze] using
      attempt3_batch_foldl_length std stock_data sp500 w events []

/-- C8: the code computes no empty-sample guard — at a one-row price
series whose event date is its only date, the post-event abnormal-return
sample is empty, yet the batch still runs the external one-sample t-test
on that empty sample and appends a summary record (with the collaborator's
NaN statistic) instead of reporting the event as a skip. -/
theorem claim_C8 :
    MassStats.postSample
      (MassStats.calculate_returns (oneRowSource "X") oneRowMarket) 0 7 = [] ∧
    (MassStats.runBatch extNone oneRowSource oneRowMarket [⟨"X", 0⟩] 7).length
      = 1 ∧
    (MassStats.runBatch extNone oneRowSource oneRowMarket [⟨"X", 0⟩] 7).map
      MassStats.SummaryRow.tTest = [extNone.ttest [] 0] := by
  decide

/-- C9 counterexample: calculate_returns mutates the caller's stock frame
in place — after the call the caller-visible frame has gained a Returns
column, so it is not unchanged. -/
theorem claim_C9_counterexample :
    (MassStats.calculate_returns_frames ⟨[⟨0, 100, 1⟩], []⟩
        ⟨[⟨0, 50, 1⟩], []⟩).1 ≠ ⟨[⟨0, 100, 1⟩], []⟩ := by
  decide

/-- C9 (amended): the MassStatistics derivation steps mutate the caller's
frames in place — calculate_returns assigns a Returns column onto both
argument frames and calculate_rsi assigns an RSI column, each preserving
the rows and every other column; only attempt3's analyze_event, which
copies its inputs first, leaves the caller's series unchanged. -/
theorem claim_C9_amended :
    (∀ stock market : DataFrame,
      ((MassStats.calculate_returns_frames stock market).1.rows = stock.rows ∧
        (MassStats.calculate_returns_frames stock market).1.extraCols
          = setCol stock.extraCols "Returns"
              (pctChange (stock.rows.map PriceRow.close))) ∧
      ((MassStats.calculate_returns_frames stock market).2.rows = market.rows ∧
        (MassStats.calculate_returns_frames stock market).2.extraCols
          = setCol market.extraCols "Returns"
              (pctChange (market.rows.map PriceRow.close)))) ∧
    (∀ (data : DataFrame) (window : Nat),
      (MassStats.calculate_rsi data window).rows = data.rows ∧
      ∃ v, (MassStats.calculate_rsi data window).extraCols
        = setCol data.extraCols "RSI" v) ∧
    (∀ df : DataFrame, (Attempt3.prepare df).1 = df) :=
  ⟨fun _ _ => ⟨⟨rfl, rfl⟩, rfl, rfl⟩,
   fun _ _ => ⟨rfl, _, rfl⟩,
   fun _ => rfl⟩

theorem tailN_length {α : Type} (n : Nat) (l : List α) :
    (Attempt3.tailN n l).length = min n l.length := by
  simp only [Attempt3.tailN, List.length_drop]
  omega

theorem annotate_row_filter_length (q : Int → Bool) :
    ∀ (l : List (Int × ℚ)) (os : List (Option ℚ)), l.length = os.length →
    ((List.zipWith (fun p o => (⟨p.1, p.2, o⟩ : Attempt3.Row)) l os).filter
        (fun r => q r.date)).length
      = (l.filter (fun p => q p.1)).length := by
  intro l
  induction l with
  | nil => intro os h; rfl
  | cons p ps ih =>
    intro os h
    cases os with
    | nil => simp at h
    | cons o os =>
      have h' : ps.length = os.length := by simpa using h
      simp only [List.zipWith_cons_cons, List.filter_cons]
      cases hq : q p.1
      · simpa [hq] using ih os h'
      · simp [hq, ih os h']

theorem annotate_filter_length (q : Int → Bool) (l : List (Int × ℚ)) :
    ((Attempt3.annotate l).filter (fun r => q r.date)).length
      = (l.filter (fun p => q p.1)).length := by
  unfold Attempt3.annotate
  exact annotate_row_filter_length q l _ (by simp [pctChange_length])

/-- C10: whenever attempt3's analyze_event returns a result, the Before
Window holds exactly window rows all dated strictly before the event and
the After Window exactly window rows all dated strictly after it; and
whenever either side of the event in either the stock or the benchmark
series holds fewer than window rows, it returns none. -/
theorem claim_C10 (std : List ℚ → Option ℚ) (df_stock df_sp500 : List (Int × ℚ))
    (E : Int) (W : Nat) :
    (∀ r, Attempt3.analyze_event std df_stock df_sp500 E W = some r →
      r.beforeWindow.length = W ∧ (∀ x ∈ r.beforeWindow, x.date < E) ∧
      r.afterWindow.length = W ∧ (∀ x ∈ r.afterWindow, E < x.date)) ∧
    ((df_stock.filter (fun p => decide (p.1 < E))).length < W ∨
      (df_stock.filter (fun p => decide (E < p.1))).length < W ∨
      (df_sp500.filter (fun p => decide (p.1 < E))).length < W ∨
      (df_sp500.filter (fun p => decide (E < p.1))).length < W →
      Attempt3.analyze_event std df_stock df_sp500 E W = none) := by
  constructor
  · intro r h
    simp only [Attempt3.analyze_event] at h
    split at h
    · simp at h
    next hcond =>
      push_neg at hcond
      obtain ⟨hb, ha, -, -⟩ := hcond
      injection h with h
      subst h
      refine ⟨?_, ?_, ?_, ?_⟩
      · have := tailN_length W
          ((Attempt3.annotate df_stock).filter (fun r => decide (r.date < E)))
        simp only [Attempt3.Result.beforeWindow] at *
        omega
      · intro x hx
        have hx' := List.mem_filter.mp (List.drop_subset _ _ hx)
        simpa using hx'.2
      · have := List.length_take W
          ((Attempt3.annotate df_stock).filter (fun r => decide (E < r.date)))
        simp only [Attempt3.Result.afterWindow] at *
        omega
      · intro x hx
        have hx' := List.mem_filter.mp (List.take_subset _ _ hx)
        simpa using hx'.2
  · intro hlt
    have hcond :
        (Attempt3.tailN W ((Attempt3.annotate df_stock).filter
            (fun r => decide (r.date < E)))).length < W ∨
        (((Attempt3.annotate df_stock).filter
            (fun r => decide (E < r.date))).take W).length < W ∨
        (Attempt3.tailN W ((Attempt3.annotate df_sp500).filter
            (fun r => decide (r.date < E)))).length < W ∨
        (((Attempt3.annotate df_sp500).filter
            (fun r => decide (E < r.date))).take W).length < W := by
      rcases hlt with h | h | h | h
      · left
        have he := annotate_filter_length (fun d => decide (d < E)) df_stock
        rw [tailN_length]
        omega
      · right; left
        have he := annotate_filter_length (fun d => decide (E < d)) df_stock
        rw [List.length_take]
        omega
      · right; right; left
        have he := annotate_filter_length (fun d => decide (d < E)) df_sp500
        rw [tailN_length]
        omega
      · right; right; right
        have he := annotate_filter_length (fun d => decide (E < d)) df_sp500
        rw [List.length_take]
        omega
    simp only [Attempt3.analyze_event]
    rw [if_pos hcond]

theorem claim_C10_witness :
    (([((0 : Int), (1 : ℚ))].filter (fun p => decide (p.1 < 5))).length < 2) ∧
    Attempt3.analyze_event (fun _ => none) [(0, 1)] [(0, 1)] 5 2 = none :=
  ⟨by decide,
   (claim_C10 (fun _ => none) [(0, 1)] [(0, 1)] 5 2).2 (Or.inl (by decide))⟩
